import Mathlib

/-!
# Verification of the hypergraph-k-cut reporting scripts

Shallow embedding of the metric-aggregation and curve-construction scripts
of the repository (`scripts/sqlplot-cutoff.py`, `scripts/gathercuts.py`,
`scripts/merge.py`), with theorems settling the specification's claims.

Numeric values handled by the Python scripts (cutoff budgets, suboptimality
factors, skewedness ratios) are modelled as rationals; Python integers are
modelled as `Int`; Python strings as `String` or `List Char` where character
level operations matter.
-/

set_option autoImplicit false

namespace HypergraphKCut

/-! ## Definitions: `scripts/sqlplot-cutoff.py`

The per-algorithm pipeline of `sqlplot-cutoff.py`: the header line provides
the cutoff budgets, each algorithm line provides the factors; pairs are
zipped positionally, sentinel-filtered (`factor < 1e10`), and truncated by
`itertools.takewhile` driven by the stateful `Predicate` class. -/

/-- The non-convergence sentinel threshold `1e10` from
`sqlplot-cutoff.py` (`if factor < 1e10`). -/
def SENTINEL : ℚ := 10000000000

/-- `cutoff_factor = [(cutoff, factor) for cutoff, factor in zip(cutoffs, factors) if factor < 1e10]`:
zip the budgets of the header line with one algorithm line's factors and
drop the pairs whose factor is at or above the sentinel. -/
def cutoff_factor (cutoffs factors : List ℚ) : List (ℚ × ℚ) :=
  (cutoffs.zip factors).filter (fun p => decide (p.2 < SENTINEL))

/-- One call of `Predicate.__call__`: given the current
`seen_cut_factor_one` flag and a `(cutoff, factor)` pair, return the
predicate's boolean result together with the updated flag. -/
def predicateCall (seen : Bool) (tup : ℚ × ℚ) : Bool × Bool :=
  if seen then (false, seen)
  else if tup.2 ≤ 1 then (true, true)
  else (true, seen)

/-- `itertools.takewhile` applied to the stateful `Predicate`: keep
elements while the predicate returns true, threading the
`seen_cut_factor_one` state through the successive calls. -/
def takewhileImpl (seen : Bool) : List (ℚ × ℚ) → List (ℚ × ℚ)
  | [] => []
  | t :: ts =>
    let r := predicateCall seen t
    if r.1 then t :: takewhileImpl r.2 ts else []

/-- `cutoff_factor = list(takewhile(Predicate(), cutoff_factor))`: the
truncation pass, started with the flag `seen_cut_factor_one = False`. -/
def truncateCurve (l : List (ℚ × ℚ)) : List (ℚ × ℚ) :=
  takewhileImpl false l

/-- The full per-algorithm curve produced by `sqlplot-cutoff.py`:
sentinel filtering followed by truncate-after-first-optimum. -/
def curve (cutoffs factors : List ℚ) : List (ℚ × ℚ) :=
  truncateCurve (cutoff_factor cutoffs factors)

/-- The per-file series handed to the rendering sink: for every algorithm
line of the data file, `plt.plot` is called with that algorithm's curve
(the `for line in file` loop plots each line unconditionally). -/
def algoSeries (cutoffs : List ℚ) (lines : List (String × List ℚ)) :
    List (String × List (ℚ × ℚ)) :=
  lines.map (fun l => (l.1, curve cutoffs l.2))

/-! ## Definitions: destination filenames of `sqlplot-cutoff.py` -/

/-- Python's `str.find`: index of the first occurrence of `c`, or `-1`
when absent. -/
def pyFind : List Char → Char → Int
  | [], _ => -1
  | a :: as, c =>
    if a = c then 0
    else
      let r := pyFind as c
      if r = -1 then -1 else r + 1

/-- Python's slice `s[:k]` for a possibly negative bound `k`: a negative
bound counts from the end of the string. -/
def pySliceTo (s : List Char) (k : Int) : List Char :=
  if k < 0 then s.take (s.length - (-k).toNat) else s.take k.toNat

/-- `extract_vertices_from_name`:
`suffix = name[len('uniformplanted_'):]; return suffix[:suffix.find('_')]`. -/
def extract_vertices_from_name (name : List Char) : List Char :=
  let suffix := name.drop ("uniformplanted_".toList.length)
  pySliceTo suffix (pyFind suffix '_')

/-- `os.path.join(dest, f'{extract_vertices_from_name(name)}')`: the
destination path of the plot image saved for instance `name`. -/
def savePath (dest name : List Char) : List Char :=
  dest ++ '/' :: extract_vertices_from_name name

/-- The file finally stored at `path` after the instances in `names` are
processed in order: each `plt.savefig` overwrites the previous content of
its destination path, so the last writer wins. -/
def finalImage (dest : List Char) (names : List (List Char)) (path : List Char) :
    Option (List Char) :=
  names.foldl (fun acc n => if savePath dest n = path then some n else acc) none

/-! ## Definitions: `scripts/merge.py`

The cross-rank clipping fold: `min_x` accumulates the maximum of the
curves' first x values, `max_x` the minimum of their last x values, and
`plt.xlim(min_x, max_x)` clips the visible range to that interval. The
script indexes `xs[0]` and `xs[-1]`, so each curve is nonempty; the
default value `0` of the embedding is never reached under that hypothesis. -/

/-- The `min_x`/`max_x` fold of `merge.py`, over the x-value lists of the
successive curves:
`min_x = xs[0] if min_x is None else max(min_x, xs[0])` and
`max_x = xs[-1] if max_x is None else min(max_x, xs[-1])`. -/
def xlimStep (acc : Option ℚ × Option ℚ) (xs : List ℚ) : Option ℚ × Option ℚ :=
  ((match acc.1 with
    | none => some (xs.headD 0)
    | some m => some (max m (xs.headD 0))),
   (match acc.2 with
    | none => some (xs.getLastD 0)
    | some m => some (min m (xs.getLastD 0))))

/-- The whole `for folder in folders` fold, starting from
`min_x, max_x = None, None`. -/
def xlimFold (curves : List (List ℚ)) : Option ℚ × Option ℚ :=
  curves.foldl xlimStep (none, none)

/-! ## Definitions: `scripts/gathercuts.py` -/

/-- Round-half-to-even on an exact rational, the semantics of Python's
`round` on the second argument's scale unit. -/
def roundHalfEven (q : ℚ) : ℤ :=
  let f : ℤ := ⌊q⌋
  let r : ℚ := q - f
  if r < 1 / 2 then f
  else if 1 / 2 < r then f + 1
  else if f % 2 = 0 then f else f + 1

/-- Python's `round(x, 3)`: round to three decimal places,
half-to-even. -/
def round3 (q : ℚ) : ℚ :=
  (roundHalfEven (q * 1000) : ℚ) / 1000

/-- The fields of one `.cut`/`.hgr` pair after line parsing:
`value = parse_value(...)`, the two partition-side vertex lists
`p1`/`p2 = parse_partition(...)`, and `num_edges`/`num_vertices` from the
`.hgr` header line. -/
structure CutHgrPair where
  name : String
  value : Int
  p1 : List Int
  p2 : List Int
  num_edges : Int
  num_vertices : Int

/-- The swap-and-divide part of the loop body:
`if len(p1) > len(p2): p1, p2 = p2, p1` followed by
`skewedness = round(len(p2) / num_vertices, 3)`. Returns
`(skewedness, len(p1), len(p2))` after the swap, that is the reported
triple (skewedness, smaller partition size, larger partition size). -/
def skewTriple (p1 p2 : List Int) (num_vertices : Int) : ℚ × ℕ × ℕ :=
  let q := if p1.length > p2.length then (p2, p1) else (p1, p2)
  (round3 ((q.2.length : ℚ) / (num_vertices : ℚ)), q.1.length, q.2.length)

/-- The loop body of `gathercuts.py` for one pair: the assertion
`assert (num_vertices == len(p1) + len(p2))` aborts with an
`AssertionError`; otherwise the CSV data row is emitted. -/
def processPair (pr : CutHgrPair) : Except String String :=
  if pr.num_vertices = (pr.p1.length : Int) + (pr.p2.length : Int) then
    let t := skewTriple pr.p1 pr.p2 pr.num_vertices
    Except.ok (String.intercalate ","
      [pr.name, toString pr.num_vertices, toString pr.num_edges,
        toString pr.value, toString t.1, toString t.2.1, toString t.2.2])
  else
    Except.error "AssertionError"

/-- The `for cut_filename in cut_filenames` loop: rows already printed
stay on stdout; the first failing pair aborts the batch, producing no row
for that pair nor any later one. Returns the emitted rows and the error,
if any. -/
def processAll : List CutHgrPair → List String × Option String
  | [] => ([], none)
  | pr :: prs =>
    match processPair pr with
    | Except.error e => ([], some e)
    | Except.ok row =>
      let r := processAll prs
      (row :: r.1, r.2)

/-- The keyword arguments Python's `print` accepts. -/
def printKwargNames : List String := ["sep", "end", "file", "flush"]

/-- Python's `print(*args, **kw)` restricted to string-valued keyword
arguments: an unknown keyword raises a `TypeError` before anything is
printed; otherwise the arguments are joined with the `sep` value
(default a single space). -/
def pyPrintKw (args : List String) (kw : List (String × String)) :
    Except String String :=
  match kw.find? (fun p => decide (¬ printKwargNames.contains p.1)) with
  | some p => Except.error ("TypeError: invalid keyword argument for print: " ++ p.1)
  | none =>
    Except.ok (String.intercalate
      (((kw.find? (fun p => decide (p.1 = "sep"))).map Prod.snd).getD " ") args)

/-- The whole stdout-producing run of `gathercuts.py` on the parsed
pairs: the preamble line, then the header line — whose `print` call
passes the invalid keyword argument `split=','` — then one data row per
pair. Returns the lines actually emitted and the uncaught exception, if
any. -/
def gathercutsRun (pairs : List CutHgrPair) : List String × Option String :=
  match pyPrintKw ["skewedness = # in larger partition / # vertices"] [] with
  | Except.error e => ([], some e)
  | Except.ok line1 =>
    match pyPrintKw
        ["name", "# vertices", "# edges", "cut value", "skewedness",
          "# in smaller partition", "# in larger partition"]
        [("split", ",")] with
    | Except.error e => ([line1], some e)
    | Except.ok line2 =>
      let r := processAll pairs
      (line1 :: line2 :: r.1, r.2)

/-! ## Definitions: the `decompose` key indexer

No `decompose` function exists under `scripts/`; only the specification
describes it (§3 composite identifiers, §4.2 KeyIndexer, §8). -/

/-- Parse a nonempty all-digit character list as a natural number;
`none` on the empty list or any non-digit, matching `int(...)` raising on
malformed input. -/
def parseNatDigits (cs : List Char) : Option ℕ :=
  if cs ≠ [] ∧ cs.all Char.isDigit then
    some (cs.foldl (fun a c => a * 10 + (c.toNat - 48)) 0)
  else none

/-- Modelled from the spec: the index of the last underscore occurring
within the final five characters of the identifier (`decompose` and the
composite-identifier parsing rule are described only in the
specification; no such function exists under `scripts/`). -/
def lastUnderscoreInWindow (s : List Char) : Option ℕ :=
  ((List.range s.length).filter
    (fun i => decide (s.length - 5 ≤ i) && decide (s.get? i = some '_'))).getLast?

/-- Modelled from the spec: `decompose(identifier) → (base_name, budget | none)`.
The budget suffix begins at the last underscore within the final five
characters; everything after it parses as the integer budget, everything
before it is the base name; with no underscore in that window the whole
identifier is the base name and there is no budget. -/
def decompose (s : List Char) : List Char × Option ℕ :=
  match lastUnderscoreInWindow s with
  | none => (s, none)
  | some i => (s.take i, parseNatDigits (s.drop (i + 1)))

/-! ## Helper lemmas -/

/-- With the flag already set, `takewhile` keeps nothing. -/
theorem takewhileImpl_true (l : List (ℚ × ℚ)) : takewhileImpl true l = [] := by
  cases l with
  | nil => rfl
  | cons t ts => simp [takewhileImpl, predicateCall]

/-- If no element has factor `≤ 1`, the truncation pass keeps everything. -/
theorem takewhileImpl_false_of_forall (l : List (ℚ × ℚ))
    (h : ∀ p ∈ l, ¬ p.2 ≤ 1) : takewhileImpl false l = l := by
  induction l with
  | nil => rfl
  | cons t ts ih =>
    have ht : ¬ t.2 ≤ 1 := h t (List.mem_cons_self t ts)
    simp only [takewhileImpl, predicateCall, if_neg ht]
    simp only [if_neg (Bool.false_ne_true), if_pos rfl]
    exact congrArg (t :: ·) (ih (fun p hp => h p (List.mem_cons_of_mem t hp)))

/-- If the first element with factor `≤ 1` sits at index `k`, the
truncation pass keeps exactly the first `k + 1` elements. -/
theorem takewhileImpl_false_take (l : List (ℚ × ℚ)) (k : ℕ) (hk : k < l.length)
    (hopt : (l.get ⟨k, hk⟩).2 ≤ 1)
    (hmin : ∀ j : ℕ, (hj : j < l.length) → j < k → ¬ (l.get ⟨j, hj⟩).2 ≤ 1) :
    takewhileImpl false l = l.take (k + 1) := by
  induction l generalizing k with
  | nil => exact absurd hk (Nat.not_lt_zero k)
  | cons t ts ih =>
    cases k with
    | zero =>
      have ht : t.2 ≤ 1 := hopt
      simp only [takewhileImpl, predicateCall, if_neg (Bool.false_ne_true), if_pos ht]
      simp [takewhileImpl_true]
    | succ k =>
      have hts : k < ts.length := Nat.lt_of_succ_lt_succ hk
      have ht : ¬ t.2 ≤ 1 := by
        have := hmin 0 (Nat.zero_lt_succ _) (Nat.zero_lt_succ _)
        simpa using this
      simp only [takewhileImpl, predicateCall, if_neg (Bool.false_ne_true), if_neg ht,
        if_pos rfl, List.take_succ_cons]
      refine congrArg (t :: ·) (ih k hts hopt ?_)
      intro j hj hjk
      exact hmin (j + 1) (Nat.succ_lt_succ hj) (Nat.succ_lt_succ hjk)

/-- The truncation pass produces a sublist (in fact, a prefix). -/
theorem takewhileImpl_sublist (seen : Bool) (l : List (ℚ × ℚ)) :
    (takewhileImpl seen l).Sublist l := by
  induction l generalizing seen with
  | nil => exact List.Sublist.refl []
  | cons t ts ih =>
    by_cases h : (predicateCall seen t).1
    · simpa [takewhileImpl, h] using List.Sublist.cons₂ t (ih (predicateCall seen t).2)
    · simp only [takewhileImpl, if_neg h]
      exact List.nil_sublist (t :: ts)

/-- In a strictly increasing list, an element that bounds every member
from above is the last element. -/
theorem getLast?_eq_some_of_max {l : List ℕ} {i : ℕ} (hp : l.Pairwise (· < ·))
    (hm : i ∈ l) (hmax : ∀ j ∈ l, j ≤ i) : l.getLast? = some i := by
  induction l with
  | nil => cases hm
  | cons a t ih =>
    cases t with
    | nil =>
      have : i = a := by simpa using hm
      simp [this]
    | cons b t2 =>
      rw [List.getLast?_cons_cons]
      have hab : a < b := (List.pairwise_cons.mp hp).1 b (List.mem_cons_self b t2)
      have hit : i ∈ b :: t2 := by
        rcases List.mem_cons.mp hm with hia | hit
        · exact absurd (hia ▸ hmax b (List.mem_cons_of_mem a (List.mem_cons_self b t2)))
            (not_le.mpr (hia ▸ hab))
        · exact hit
      exact ih (List.pairwise_cons.mp hp).2 hit
        (fun j hj => hmax j (List.mem_cons_of_mem a hj))

/-- Characterization of `lastUnderscoreInWindow` when an underscore lies
in the window: it returns the last one. -/
theorem lastUnderscoreInWindow_eq_some (s : List Char) (i : ℕ)
    (hwin : s.length - 5 ≤ i) (hu : s.get? i = some '_')
    (hlast : ∀ j : ℕ, j < s.length → i < j → s.get? j ≠ some '_') :
    lastUnderscoreInWindow s = some i := by
  have hi : i < s.length := by
    by_contra h
    rw [List.get?_eq_none.mpr (le_of_not_lt h)] at hu
    cases hu
  unfold lastUnderscoreInWindow
  apply getLast?_eq_some_of_max
  · exact List.Pairwise.filter _ (List.pairwise_lt_range s.length)
  · refine List.mem_filter.mpr ⟨List.mem_range.mpr hi, ?_⟩
    simpa [hwin] using hu
  · intro j hj
    have hj' := List.mem_filter.mp hj
    have hjlen : j < s.length := List.mem_range.mp hj'.1
    have hju : s.get? j = some '_' := by
      have := hj'.2
      simp only [Bool.and_eq_true, decide_eq_true_eq] at this
      exact this.2
    by_contra hij
    exact hlast j hjlen (lt_of_not_le hij) hju

/-- Characterization of `lastUnderscoreInWindow` when no underscore lies
in the window. -/
theorem lastUnderscoreInWindow_eq_none (s : List Char)
    (h : ∀ j : ℕ, j < s.length → s.length - 5 ≤ j → s.get? j ≠ some '_') :
    lastUnderscoreInWindow s = none := by
  unfold lastUnderscoreInWindow
  rw [List.filter_eq_nil_iff.mpr ?_]
  · rfl
  · intro j hj
    have hjlen : j < s.length := List.mem_range.mp hj
    simp only [Bool.and_eq_true, decide_eq_true_eq, not_and]
    intro hwin
    exact h j hjlen hwin

/-- `str.find` on a list whose first occurrence of `c` follows the block
`v` returns the length of `v`. -/
theorem pyFind_append (v rest : List Char) (c : Char) (h : c ∉ v) :
    pyFind (v ++ c :: rest) c = (v.length : Int) := by
  induction v with
  | nil => simp [pyFind]
  | cons a as ih =>
    have ha : ¬ a = c := fun hac => h (hac ▸ List.mem_cons_self a as)
    have has : c ∉ as := fun hc => h (List.mem_cons_of_mem a hc)
    simp only [List.cons_append, pyFind, if_neg ha, List.append_eq]
    rw [ih has]
    have hne : ((as.length : Int)) ≠ -1 := by omega
    rw [if_neg hne]
    simp only [List.length_cons, Nat.cast_add, Nat.cast_one]

/-- The reported triple of `gathercuts.py` in terms of the larger and
smaller partition sizes. -/
theorem skewTriple_eq (p1 p2 : List Int) (n : Int) :
    skewTriple p1 p2 n =
      (round3 ((max p1.length p2.length : ℚ) / (n : ℚ)),
        min p1.length p2.length, max p1.length p2.length) := by
  unfold skewTriple
  rcases le_or_lt p1.length p2.length with h | h
  · have hq : (p1.length : ℚ) ≤ (p2.length : ℚ) := Nat.cast_le.mpr h
    rw [if_neg (not_lt.mpr h)]
    simp [max_eq_right h, min_eq_left h, Nat.cast_max, max_eq_right hq]
  · have hq : (p2.length : ℚ) ≤ (p1.length : ℚ) := Nat.cast_le.mpr h.le
    rw [if_pos h]
    simp [max_eq_left h.le, min_eq_right h.le, Nat.cast_max, max_eq_left hq]

/-- Unrolling the `min_x`/`max_x` fold from an already-set accumulator. -/
theorem xlimFold_go (cs : List (List ℚ)) (a b : ℚ) :
    cs.foldl xlimStep (some a, some b) =
      (some ((cs.map (fun xs => xs.headD 0)).foldl max a),
       some ((cs.map (fun xs => xs.getLastD 0)).foldl min b)) := by
  induction cs generalizing a b with
  | nil => rfl
  | cons c cs ih =>
    rw [List.foldl_cons]
    exact (ih (max a (c.headD 0)) (min b (c.getLastD 0))).trans rfl

/-! ## Claim theorems -/

/-- C1. Truncate-after-first-optimum: after sentinel filtering, if `k` is
the smallest index whose factor is `≤ 1.0`, the produced curve is exactly
the prefix of length `k + 1` of the filtered sequence; if no pair has
factor `≤ 1.0`, the produced curve is the entire filtered sequence
unchanged. -/
theorem truncate_after_first_optimum (cutoffs factors : List ℚ) :
    (∀ k : ℕ, k < (cutoff_factor cutoffs factors).length →
      ((cutoff_factor cutoffs factors).getD k (0, 0)).2 ≤ 1 →
      (∀ j : ℕ, j < k →
        ¬ ((cutoff_factor cutoffs factors).getD j (0, 0)).2 ≤ 1) →
      curve cutoffs factors = (cutoff_factor cutoffs factors).take (k + 1))
    ∧ ((∀ p ∈ cutoff_factor cutoffs factors, ¬ p.2 ≤ 1) →
      curve cutoffs factors = cutoff_factor cutoffs factors) := by
  constructor
  · intro k hk hopt hmin
    refine takewhileImpl_false_take _ k hk ?_ ?_
    · rwa [List.getD_eq_getElem _ _ hk] at hopt
    · intro j hj hjk
      have := hmin j hjk
      rwa [List.getD_eq_getElem _ _ hj] at this
  · exact fun h => takewhileImpl_false_of_forall _ h

/-- Witness for C1: factors `[3, 1, 7]` at budgets `[10, 50, 90]`
truncate to the prefix of length two. -/
theorem truncate_after_first_optimum_witness :
    curve [10, 50, 90] [3, 1, 7] =
      (cutoff_factor [10, 50, 90] [3, 1, 7]).take 2 :=
  (truncate_after_first_optimum [10, 50, 90] [3, 1, 7]).1 1
    (by decide) (by decide) (by decide)

/-- C2 counterexample: the pipeline neither sorts nor deduplicates, so
presenting the same records in another order changes the produced
sequence, and the output need not be in ascending budget order. The two
inputs below are permutations of the same record set. -/
theorem curve_not_order_invariant :
    (([50, 10] : List ℚ).zip [2, 1]).Perm (([10, 50] : List ℚ).zip [1, 2])
    ∧ curve [50, 10] [2, 1] ≠ curve [10, 50] [1, 2]
    ∧ ¬ ((curve [50, 10] [2, 1]).map Prod.fst).Pairwise (· ≤ ·) := by
  decide

/-- C2 amended: the produced curve is a sublist of the records in their
presentation order (the computation is a deterministic function of that
order); whenever the records are presented in strictly ascending budget
order, the produced curve is in strictly ascending budget order, hence
has no duplicate budgets. Different presentation orders of the same
records may yield different curves. -/
theorem curve_preserves_presentation_order (cutoffs factors : List ℚ)
    (h : ((cutoffs.zip factors).map Prod.fst).Pairwise (· < ·)) :
    (curve cutoffs factors).Sublist (cutoffs.zip factors)
    ∧ ((curve cutoffs factors).map Prod.fst).Pairwise (· < ·) := by
  have hsub : (curve cutoffs factors).Sublist (cutoffs.zip factors) :=
    (takewhileImpl_sublist false _).trans (List.filter_sublist _)
  exact ⟨hsub, List.Pairwise.sublist (hsub.map Prod.fst) h⟩

/-- Witness for the amended C2 at budgets `[10, 50]`, factors `[1, 2]`. -/
theorem curve_preserves_presentation_order_witness :
    (curve [10, 50] [1, 2]).Sublist (([10, 50] : List ℚ).zip [1, 2])
    ∧ ((curve [10, 50] [1, 2]).map Prod.fst).Pairwise (· < ·) :=
  curve_preserves_presentation_order [10, 50] [1, 2] (by decide)

/-- C3 counterexample: an algorithm whose records are all sentinel-valued
is still handed to the rendering sink, as an empty series, rather than
being omitted from the result mapping. -/
theorem empty_series_not_omitted :
    algoSeries [10] [("a", [(10000000000 : ℚ)])] = [("a", [])]
    ∧ ("a", ([] : List (ℚ × ℚ))) ∈ algoSeries [10] [("a", [(10000000000 : ℚ)])] := by
  decide

/-- C3 amended: every algorithm line of the input file is handed to the
rendering sink — the series mapping has exactly one entry per input
algorithm, in input order — including algorithms with zero surviving
points, whose entry is an empty series (plotted in the marker-only branch
like any series of length at most one); they are not omitted. -/
theorem all_algorithms_reach_sink (cutoffs : List ℚ)
    (lines : List (String × List ℚ)) :
    (algoSeries cutoffs lines).map Prod.fst = lines.map Prod.fst
    ∧ ∀ l ∈ lines, (l.1, curve cutoffs l.2) ∈ algoSeries cutoffs lines := by
  constructor
  · simp [algoSeries]
  · intro l hl
    exact List.mem_map_of_mem _ hl

/-- Witness for the amended C3: the all-sentinel algorithm `"a"` reaches
the sink with its (empty) curve. -/
theorem all_algorithms_reach_sink_witness :
    ("a", curve [10] [(10000000000 : ℚ)]) ∈ algoSeries [10] [("a", [(10000000000 : ℚ)])] :=
  (all_algorithms_reach_sink [10] [("a", [(10000000000 : ℚ)])]).2
    ("a", [(10000000000 : ℚ)]) (by decide)

/-- C4. Sentinel filtering: every zipped pair with factor `< 1e10`
survives the sentinel filter, everything the filter keeps has factor
`< 1e10`, and no pair with factor `≥ 1e10` ever appears in the produced
curve. -/
theorem sentinel_filtering (cutoffs factors : List ℚ) :
    (∀ p ∈ cutoff_factor cutoffs factors, p.2 < SENTINEL)
    ∧ (∀ p ∈ cutoffs.zip factors, p.2 < SENTINEL →
        p ∈ cutoff_factor cutoffs factors)
    ∧ (∀ p ∈ curve cutoffs factors, p.2 < SENTINEL) := by
  refine ⟨?_, ?_, ?_⟩
  · intro p hp
    have := List.of_mem_filter hp
    simpa using this
  · intro p hp hlt
    exact List.mem_filter.mpr ⟨hp, by simpa using hlt⟩
  · intro p hp
    have hp' : p ∈ cutoff_factor cutoffs factors :=
      (takewhileImpl_sublist false _).subset hp
    have := List.of_mem_filter hp'
    simpa using this

/-- Witness for C4: the sub-sentinel pair `(10, 1)` survives the filter. -/
theorem sentinel_filtering_witness :
    ((10 : ℚ), (1 : ℚ)) ∈ cutoff_factor [10] [1] :=
  (sentinel_filtering [10] [1]).2.1 (10, 1) (by decide) (by decide)

/-- C5. `decompose` is total and deterministic (it is a function); if the
identifier has an underscore within its final five characters, the base
name is everything before the last such underscore and the budget is the
integer parsed from the text after it; with no underscore in that window
(in particular with no underscore at all) the result is the whole
identifier with no budget. -/
theorem decompose_spec (s : List Char) :
    (∀ i : ℕ, s.length - 5 ≤ i → s.get? i = some '_' →
      (∀ j : ℕ, j < s.length → i < j → s.get? j ≠ some '_') →
      decompose s = (s.take i, parseNatDigits (s.drop (i + 1))))
    ∧ ((∀ j : ℕ, j < s.length → s.length - 5 ≤ j → s.get? j ≠ some '_') →
      decompose s = (s, none)) := by
  constructor
  · intro i hwin hu hlast
    unfold decompose
    rw [lastUnderscoreInWindow_eq_some s i hwin hu hlast]
  · intro h
    unfold decompose
    rw [lastUnderscoreInWindow_eq_none s h]

/-- Witness for C5: `"algo_50"` splits at the underscore at index 4 into
base `"algo"` and budget suffix `"50"`. -/
theorem decompose_spec_witness :
    decompose "algo_50".toList =
      ("algo_50".toList.take 4, parseNatDigits ("algo_50".toList.drop 5)) :=
  (decompose_spec "algo_50".toList).1 4 (by decide) (by decide) (by decide)

/-- C6. The claim says the gathering tool's CSV output begins with the
header line `name,num_vertices,...`; the code prints a preamble line and
then calls `print(..., split=',')` — `split` is not a keyword `print`
accepts (the data-row call correctly uses `sep=','`), so the script
aborts with a `TypeError` on every input, after emitting only the
preamble line and before any header or data row. -/
theorem gathercuts_header_type_error (pairs : List CutHgrPair) :
    gathercutsRun pairs =
      (["skewedness = # in larger partition / # vertices"],
        some "TypeError: invalid keyword argument for print: split")
    ∧ "name,num_vertices,num_edges,cut_value,skewedness,smaller_partition_size,larger_partition_size"
        ∉ (gathercutsRun pairs).1 := by
  refine ⟨rfl, ?_⟩
  rw [show (gathercutsRun pairs).1
      = ["skewedness = # in larger partition / # vertices"] from rfl]
  decide

/-- C7. Skewedness round-trip: the reported triple
(skewedness, smaller size, larger size) is invariant under swapping the
two partition lines, skewedness is the larger size over `num_vertices`
rounded to three decimals, and partition sizes 3 and 7 with ten vertices
report `(0.7, 3, 7)`. -/
theorem skewedness_round_trip (p1 p2 : List Int) (n : Int) :
    skewTriple p1 p2 n = skewTriple p2 p1 n
    ∧ skewTriple p1 p2 n =
        (round3 ((max p1.length p2.length : ℚ) / (n : ℚ)),
          min p1.length p2.length, max p1.length p2.length)
    ∧ skewTriple [1, 2, 3] [4, 5, 6, 7, 8, 9, 10] 10 = (7/10, 3, 7) := by
  refine ⟨?_, skewTriple_eq p1 p2 n, ?_⟩
  · rw [skewTriple_eq p1 p2 n, skewTriple_eq p2 p1 n]
    simp [max_comm, min_comm]
  · rw [skewTriple_eq]
    norm_num [round3, roundHalfEven]

/-- C8. Cross-rank clipping: for a nonempty collection of curves, the
x-limits handed to `plt.xlim` are the maximum of the curves' first x
values and the minimum of their last x values. -/
theorem cross_rank_clipping (curves : List (List ℚ)) (h : curves ≠ []) :
    xlimFold curves =
      ((curves.map (fun xs => xs.headD 0)).max?,
       (curves.map (fun xs => xs.getLastD 0)).min?) := by
  cases curves with
  | nil => exact absurd rfl h
  | cons c cs =>
    unfold xlimFold
    rw [List.foldl_cons,
      show xlimStep (none, none) c = (some (c.headD 0), some (c.getLastD 0)) from rfl,
      xlimFold_go]
    rfl

/-- Witness for C8: curves with x-domains `[2, 100]` and `[5, 80]` clip
to `[5, 80]`. -/
theorem cross_rank_clipping_witness :
    xlimFold [[2, 100], [5, 80]] = (some 5, some 80) :=
  (cross_rank_clipping [[2, 100], [5, 80]] (by decide)).trans (by decide)

/-- C9. The loop body of `gathercuts.py` fails with the fatal assertion
if and only if the combined length of the two partition-side lists
differs from `num_vertices`; when it fails, the batch is aborted with no
CSV row produced for that pair (nor any later pair). -/
theorem assert_vertex_count (pr : CutHgrPair) (prs : List CutHgrPair) :
    ((∃ e, processPair pr = Except.error e) ↔
      pr.num_vertices ≠ (pr.p1.length : Int) + (pr.p2.length : Int))
    ∧ (pr.num_vertices ≠ (pr.p1.length : Int) + (pr.p2.length : Int) →
      processAll (pr :: prs) = ([], some "AssertionError")) := by
  constructor
  · constructor
    · rintro ⟨e, he⟩ heq
      rw [processPair, if_pos heq] at he
      cases he
    · intro hne
      exact ⟨"AssertionError", by rw [processPair, if_neg hne]⟩
  · intro hne
    show (match processPair pr with
      | Except.error e => ([], some e)
      | Except.ok row => ((row :: (processAll prs).1 : List String), (processAll prs).2))
      = ([], some "AssertionError")
    rw [processPair, if_neg hne]

/-- Witness for C9: a pair with partition sizes 3 and 7 but
`num_vertices = 11` aborts the batch with no data row. -/
theorem assert_vertex_count_witness :
    processAll [⟨"x", 5, [1, 2, 3], [4, 5, 6, 7, 8, 9, 10], 20, 11⟩] =
      ([], some "AssertionError") :=
  (assert_vertex_count ⟨"x", 5, [1, 2, 3], [4, 5, 6, 7, 8, 9, 10], 20, 11⟩ []).2
    (by decide)

/-- C10. The plot image is saved under the vertex-count field of the
instance name alone: for names of the form
`uniformplanted_{v}_{rest}` the extracted field is `v`; names with equal
extracted fields map to the same destination path; and when two such
instances are processed in order, the later one's image overwrites the
earlier one's. -/
theorem cutoff_plot_filename_collision (v rest dest n1 n2 : List Char) :
    ('_' ∉ v →
      extract_vertices_from_name ("uniformplanted_".toList ++ v ++ '_' :: rest) = v)
    ∧ (extract_vertices_from_name n1 = extract_vertices_from_name n2 →
      savePath dest n1 = savePath dest n2)
    ∧ (savePath dest n1 = savePath dest n2 →
      finalImage dest [n1, n2] (savePath dest n1) = some n2) := by
  refine ⟨?_, ?_, ?_⟩
  · intro hv
    simp only [extract_vertices_from_name]
    rw [List.append_assoc, List.drop_left, pyFind_append v rest '_' hv]
    unfold pySliceTo
    rw [if_neg (by omega : ¬ ((v.length : Int) < 0))]
    rw [Int.toNat_natCast, List.take_left]
  · intro h
    unfold savePath
    rw [h]
  · intro h
    unfold finalImage
    rw [List.foldl_cons, List.foldl_cons, List.foldl_nil, if_pos h.symm]

/-- Witness for C10: the instances `uniformplanted_100_2_3_4_5` and
`uniformplanted_100_9_9_9_9` share the vertex-count field `100`, collide
on the same destination path, and the later instance wins. -/
theorem cutoff_plot_filename_collision_witness :
    extract_vertices_from_name
        ("uniformplanted_".toList ++ "100".toList ++ '_' :: "2_3_4_5".toList)
      = "100".toList
    ∧ savePath "plots".toList "uniformplanted_100_2_3_4_5".toList
      = savePath "plots".toList "uniformplanted_100_9_9_9_9".toList
    ∧ finalImage "plots".toList
        ["uniformplanted_100_2_3_4_5".toList, "uniformplanted_100_9_9_9_9".toList]
        (savePath "plots".toList "uniformplanted_100_2_3_4_5".toList)
      = some "uniformplanted_100_9_9_9_9".toList :=
  ⟨(cutoff_plot_filename_collision "100".toList "2_3_4_5".toList "plots".toList
      [] []).1 (by decide),
   (cutoff_plot_filename_collision [] [] "plots".toList
      "uniformplanted_100_2_3_4_5".toList "uniformplanted_100_9_9_9_9".toList).2.1
     (by decide),
   (cutoff_plot_filename_collision [] [] "plots".toList
      "uniformplanted_100_2_3_4_5".toList "uniformplanted_100_9_9_9_9".toList).2.2
     (by decide)⟩

end HypergraphKCut
